import Mathlib

/-!
Verification of `ReadWriteRegistry` (aalpern/go-metrics, `rwregistry.go`)

A shallow embedding of the read/write-locked metric registry.  The Go
registry is a `map[string]interface{}` guarded by a `sync.RWMutex`; we model
the map as an association list with unique keys (the well-formedness
predicate `WF`) and each operation as a pure function on that list.  Locking
has no observable effect in the sequential semantics, so it is erased; the
one place where the lock discipline is observable (the read-then-reacquire
window inside `GetOrRegister`) is modelled explicitly by
`GetOrRegisterRaced`, which takes the registry state seen by the initial
read and the (possibly different) state seen by the final insert as two
separate arguments.
-/

set_option autoImplicit false

namespace RWRegistry

/-- Modelled from the spec: the recognized metric capability set
(`Counter, Gauge, GaugeFloat64, Healthcheck, Histogram, Meter, Timer`).
The concrete interface types live outside `rwregistry.go`; the registry only
tests membership in this closed set, so each is a tag here. -/
inductive MetricKind where
  | counter
  | gauge
  | gaugeFloat64
  | healthcheck
  | histogram
  | meter
  | timer
  deriving DecidableEq, Repr

/-- A runtime value handed to the registry (Go `interface{}`).
`metric k id` is an instance satisfying capability `k` (the `id` field
distinguishes instances, standing in for Go pointer identity);
`other id` is a value of any unrecognized non-function type; and
`func arity result` is a value of function kind (`reflect.Func`) taking
`arity` parameters and returning `result` when invoked with none. -/
inductive Value where
  | metric (kind : MetricKind) (id : Nat)
  | other (id : Nat)
  | func (arity : Nat) (result : Value)
  deriving DecidableEq, Repr

/-- Modelled from the spec: the single domain error kind,
`DuplicateMetric(name)` (declared outside `rwregistry.go`). -/
inductive RegError where
  | duplicateMetric (name : String)
  deriving DecidableEq, Repr

/-- The registry's `metrics` field: a `map[string]interface{}`, modelled as
an association list from names to values. -/
abbrev Registry := List (String × Value)

/-- Map lookup, `r.metrics[name]` (first binding wins; `WF` guarantees at
most one binding per key). -/
def lookup : Registry → String → Option Value
  | [], _ => none
  | (m, v) :: rest, n => if m = n then some v else lookup rest n

/-- Map deletion, `delete(r.metrics, name)`: removes every binding of the
key (with `WF` there is at most one). -/
def eraseKey : Registry → String → Registry
  | [], _ => []
  | (m, v) :: rest, n =>
    if m = n then eraseKey rest n else (m, v) :: eraseKey rest n

/-- The map invariant: one binding per name. -/
def WF (r : Registry) : Prop := (r.map Prod.fst).Nodup

/-- Does the value satisfy one of the recognized capability variants?
This is the `switch i.(type)` over
`Counter, Gauge, GaugeFloat64, Healthcheck, Histogram, Meter, Timer`
in `register`: exactly the `metric` values qualify (a Go function value
implements none of those interfaces). -/
def recognized : Value → Bool
  | .metric _ _ => true
  | _ => false

/-- The type assertion `i.(Healthcheck)` in `RunHealthchecks`. -/
def isHealthcheck : Value → Bool
  | .metric .healthcheck _ => true
  | _ => false

/-- The reflection test `reflect.ValueOf(i).Kind() == reflect.Func`. -/
def isFunc : Value → Bool
  | .func _ _ => true
  | _ => false

/-- Go `NewReadWriteRegistry()`: an empty map. -/
def NewReadWriteRegistry : Registry := []

/-- Go `Get`: the stored instance, or `none` (Go `nil`) if absent. -/
def Get (r : Registry) (n : String) : Option Value := lookup r n

/-- The private `register` method: returns `DuplicateMetric` if the name is
taken; otherwise stores the value only when it matches a recognized variant
(`r.metrics[name] = i` inside the type switch) and returns no error either
way. -/
def register (r : Registry) (n : String) (i : Value) : Registry × Option RegError :=
  match lookup r n with
  | some _ => (r, some (RegError.duplicateMetric n))
  | none => (if recognized i then r ++ [(n, i)] else r, none)

/-- Go `Register`: `register` under the write lock. -/
def Register (r : Registry) (n : String) (i : Value) : Registry × Option RegError :=
  register r n i

/-- Lines 45-47 of `rwregistry.go`: if the argument is of function kind it
is invoked via `reflect.Value.Call(nil)` and replaced by its first result.
`Call(nil)` on a function expecting parameters panics inside `reflect`
("too few input arguments"), modelled as `none`.  The `Nat` component
counts how many times a supplied function was invoked. -/
def materialize : Value → Option (Value × Nat)
  | .func 0 res => some (res, 1)
  | .func (_ + 1) _ => none
  | v => some (v, 0)

/-- The observable outcome of a `GetOrRegister` call: the resulting
registry state, the value returned to the caller, and how many times the
supplied argument was invoked as a factory. -/
structure GoRResult where
  registry : Registry
  value : Value
  factoryInvocations : Nat
  deriving DecidableEq, Repr

/-- Go `GetOrRegister` with the lock-drop window made explicit: `rRead` is the
state seen while holding the read lock, `rWrite` the state seen after
re-acquiring the write lock (another writer may have run in between).
If the read finds the name, the stored metric is returned at once; else the
argument is materialized (possibly panicking, `none`) and handed to
`register`, whose error result is discarded (line 50 drops it). -/
def GetOrRegisterRaced (rRead rWrite : Registry) (n : String) (i : Value) :
    Option GoRResult :=
  match lookup rRead n with
  | some metric => some ⟨rWrite, metric, 0⟩
  | none =>
    match materialize i with
    | none => none
    | some (v, c) => some ⟨(register rWrite n v).1, v, c⟩

/-- Go `GetOrRegister` as executed without interference: both the read and the
insert see the same state. -/
def GetOrRegister (r : Registry) (n : String) (i : Value) : Option GoRResult :=
  GetOrRegisterRaced r r n i

/-- Go `Unregister`: delete the binding; no-op when absent. -/
def Unregister (r : Registry) (n : String) : Registry := eraseKey r n

/-- Go `UnregisterAll`: `for name := range r.metrics { delete(r.metrics, name) }` —
erase every key present at the start. -/
def UnregisterAll (r : Registry) : Registry :=
  (r.map Prod.fst).foldl eraseKey r

/-- The private `registered` method: a fresh copy of the map taken under the
read lock (the loop `metrics[name] = i` over all entries). -/
def registered (r : Registry) : Registry :=
  r.foldl (fun acc p => acc ++ [p]) []

/-- Go `Each`: call the visitor on every entry of the snapshot.  The visitor
threads a state of its own (in Go it closes over mutable state, possibly
the registry itself). -/
def Each {σ : Type} (r : Registry) (f : String → Value → σ → σ) (s : σ) : σ :=
  (registered r).foldl (fun s p => f p.1 p.2 s) s

/-- Go `Each` instrumented for the snapshot claim: the visitor both mutates a
registry (with an arbitrary mutation `g`, e.g. `Register`/`Unregister`
applied to the very registry being iterated) and records the pairs it was
handed.  Returns the mutated registry and the visit trace. -/
def eachWithMutation (r : Registry) (g : String → Value → Registry → Registry) :
    Registry × List (String × Value) :=
  Each r (fun n v st => (g n v st.1, st.2 ++ [(n, v)])) (r, [])

/-- Go `RunHealthchecks`: iterate the map, invoking `Check()` on each entry
that asserts to `Healthcheck`.  `Check` records its result inside the
healthcheck object, so the observable behaviour is the list of entries
whose `Check` was invoked, in iteration order. -/
def RunHealthchecks (r : Registry) : List (String × Value) :=
  r.foldl (fun checked p => if isHealthcheck p.2 then checked ++ [p] else checked) []

/-! Basic lemmas about the association-list map. -/

theorem lookup_append_of_none {r : Registry} {n : String} (h : lookup r n = none)
    (tl : Registry) : lookup (r ++ tl) n = lookup tl n := by
  induction r with
  | nil => simp
  | cons p rest ih =>
    obtain ⟨m, v⟩ := p
    by_cases hm : m = n
    · simp [lookup, hm] at h
    · simp only [lookup, hm, if_false, List.cons_append] at h ⊢
      exact ih h

theorem lookup_insert_self {r : Registry} {n : String} (h : lookup r n = none)
    (v : Value) : lookup (r ++ [(n, v)]) n = some v := by
  rw [lookup_append_of_none h]
  simp [lookup]

theorem mem_eraseKey {r : Registry} {n : String} {p : String × Value} :
    p ∈ eraseKey r n ↔ p ∈ r ∧ p.1 ≠ n := by
  induction r with
  | nil => simp [eraseKey]
  | cons q rest ih =>
    obtain ⟨m, v⟩ := q
    by_cases hm : m = n
    · rw [eraseKey, if_pos hm, ih]
      constructor
      · rintro ⟨hp, hne⟩
        exact ⟨List.mem_cons_of_mem _ hp, hne⟩
      · rintro ⟨hp, hne⟩
        rcases List.mem_cons.mp hp with h | h
        · exact absurd (by rw [h]; exact hm) hne
        · exact ⟨h, hne⟩
    · rw [eraseKey, if_neg hm]
      constructor
      · intro hp
        rcases List.mem_cons.mp hp with h | h
        · subst h
          exact ⟨List.mem_cons_self _ _, hm⟩
        · obtain ⟨h1, h2⟩ := ih.mp h
          exact ⟨List.mem_cons_of_mem _ h1, h2⟩
      · rintro ⟨hp, hne⟩
        rcases List.mem_cons.mp hp with h | h
        · rw [h]
          exact List.mem_cons_self _ _
        · exact List.mem_cons_of_mem _ (ih.mpr ⟨h, hne⟩)

theorem mem_foldl_eraseKey {ks : List String} {acc : Registry} {p : String × Value} :
    p ∈ ks.foldl eraseKey acc ↔ p ∈ acc ∧ p.1 ∉ ks := by
  induction ks generalizing acc with
  | nil => simp
  | cons k rest ih =>
    simp only [List.foldl_cons, ih, mem_eraseKey, List.mem_cons]
    constructor
    · rintro ⟨⟨hp, hne⟩, hnot⟩
      exact ⟨hp, by rintro (h | h); exact hne h; exact hnot h⟩
    · rintro ⟨hp, hnot⟩
      exact ⟨⟨hp, fun h => hnot (Or.inl h)⟩, fun h => hnot (Or.inr h)⟩

theorem unregisterAll_eq_nil (r : Registry) : UnregisterAll r = [] := by
  rw [List.eq_nil_iff_forall_not_mem]
  intro p hp
  rw [UnregisterAll, mem_foldl_eraseKey] at hp
  exact hp.2 (List.mem_map_of_mem Prod.fst hp.1)

theorem registered_eq (r : Registry) : registered r = r := by
  have key : ∀ (l acc : Registry), l.foldl (fun acc p => acc ++ [p]) acc = acc ++ l := by
    intro l
    induction l with
    | nil => simp
    | cons p rest ih => intro acc; simp [ih]
  simpa using key r []

theorem eachWithMutation_trace (r : Registry)
    (g : String → Value → Registry → Registry) :
    (eachWithMutation r g).2 = r := by
  have key : ∀ (l : Registry) (a : Registry) (t : List (String × Value)),
      (l.foldl (fun st p => (g p.1 p.2 st.1, st.2 ++ [p])) (a, t)).2 = t ++ l := by
    intro l
    induction l with
    | nil => simp
    | cons p rest ih => intro a t; simp [ih]
  have := key r r []
  simpa [eachWithMutation, Each, registered_eq] using this

theorem nodup_of_wf {r : Registry} (h : WF r) : r.Nodup :=
  List.Nodup.of_map Prod.fst h

theorem count_eq_ite_of_nodup {l : List (String × Value)} (h : l.Nodup)
    (p : String × Value) : List.count p l = if p ∈ l then 1 else 0 := by
  induction l with
  | nil => simp
  | cons q rest ih =>
    obtain ⟨hq, hrest⟩ := List.nodup_cons.mp h
    by_cases hpq : p = q
    · subst hpq
      simp [List.count_cons, ih hrest, hq]
    · simp [List.count_cons, ih hrest, hpq, Ne.symm hpq, List.mem_cons]

theorem runHealthchecks_eq_filter (r : Registry) :
    RunHealthchecks r = r.filter (fun p => isHealthcheck p.2) := by
  have key : ∀ (l : Registry) (acc : List (String × Value)),
      l.foldl (fun checked p => if isHealthcheck p.2 then checked ++ [p] else checked) acc
        = acc ++ l.filter (fun p => isHealthcheck p.2) := by
    intro l
    induction l with
    | nil => simp
    | cons p rest ih =>
      intro acc
      by_cases hp : isHealthcheck p.2
      · simp [hp, ih]
      · simp [hp, ih]
  simpa [RunHealthchecks] using key r []

/-! Claim theorems. -/

/-- C1: whenever name `n` already has an entry `w`, `Register n v` returns
`DuplicateMetric n`, leaves the registry unchanged, and the instance stored
under `n` remains `w` (the one registered first), regardless of `v`. -/
theorem register_duplicate_keeps_first (r : Registry) (n : String) (v w : Value)
    (h : Get r n = some w) :
    Register r n v = (r, some (RegError.duplicateMetric n))
    ∧ Get (Register r n v).1 n = some w := by
  have hl : lookup r n = some w := h
  have h1 : Register r n v = (r, some (RegError.duplicateMetric n)) := by
    simp [Register, register, hl]
  exact ⟨h1, by rw [h1]; exact h⟩

/-- C1 witness: a concrete duplicate registration is rejected and the first
instance survives. -/
theorem register_duplicate_keeps_first_witness :
    Register [("requests", Value.metric .counter 1)] "requests" (Value.metric .counter 2)
      = ([("requests", Value.metric .counter 1)], some (RegError.duplicateMetric "requests"))
    ∧ Get (Register [("requests", Value.metric .counter 1)] "requests"
        (Value.metric .counter 2)).1 "requests" = some (Value.metric .counter 1) :=
  register_duplicate_keeps_first [("requests", Value.metric .counter 1)] "requests"
    (Value.metric .counter 2) (Value.metric .counter 1) rfl

/-- C2: for a fresh name and a value satisfying a recognized capability
variant, `Register` returns no error and a subsequent `Get` returns exactly
that instance. -/
theorem register_fresh_recognized (r : Registry) (n : String) (v : Value)
    (h1 : Get r n = none) (h2 : recognized v = true) :
    (Register r n v).2 = none ∧ Get (Register r n v).1 n = some v := by
  have hl : lookup r n = none := h1
  constructor
  · simp [Register, register, hl]
  · show lookup (Register r n v).1 n = some v
    simp only [Register, register, hl, h2, if_true]
    exact lookup_insert_self hl v

/-- C2 witness: registering a counter under a fresh name succeeds and `Get`
returns it. -/
theorem register_fresh_recognized_witness :
    (Register [] "requests" (Value.metric .counter 1)).2 = none
    ∧ Get (Register [] "requests" (Value.metric .counter 1)).1 "requests"
        = some (Value.metric .counter 1) :=
  register_fresh_recognized [] "requests" (Value.metric .counter 1) rfl rfl

/-- C3: for a fresh name and a value satisfying none of the recognized
variants, `Register` returns no error, creates no entry (the registry is
unchanged), and a subsequent `Get` returns the absent indicator. -/
theorem register_fresh_unrecognized (r : Registry) (n : String) (v : Value)
    (h1 : Get r n = none) (h2 : recognized v = false) :
    Register r n v = (r, none) ∧ Get (Register r n v).1 n = none := by
  have hl : lookup r n = none := h1
  have h3 : Register r n v = (r, none) := by
    simp [Register, register, hl, h2]
  exact ⟨h3, by rw [h3]; exact h1⟩

/-- C3 witness: registering an unrecognized value under a fresh name is a
silent no-op. -/
theorem register_fresh_unrecognized_witness :
    Register [] "x" (Value.other 5) = ([], none)
    ∧ Get (Register [] "x" (Value.other 5)).1 "x" = none :=
  register_fresh_unrecognized [] "x" (Value.other 5) rfl rfl

/-- C4: if name `n` is present, `GetOrRegister` returns the stored instance
and invokes no factory (invocation count 0, for any argument); if `n` is
absent and the argument is a zero-parameter factory returning `res`, the
factory is invoked exactly once (count 1), its result is handed to
`register` (so it is stored when recognized), and `res` is returned. -/
theorem getOrRegister_factory_contract (r : Registry) (n : String) (res : Value) :
    (∀ m i, Get r n = some m → GetOrRegister r n i = some ⟨r, m, 0⟩)
    ∧ (Get r n = none →
        GetOrRegister r n (Value.func 0 res) = some ⟨(register r n res).1, res, 1⟩
        ∧ (recognized res = true → Get (register r n res).1 n = some res)) := by
  constructor
  · intro m i hm
    have hl : lookup r n = some m := hm
    simp [GetOrRegister, GetOrRegisterRaced, hl]
  · intro habs
    have hl : lookup r n = none := habs
    constructor
    · simp [GetOrRegister, GetOrRegisterRaced, hl, materialize]
    · intro hrec
      show lookup (register r n res).1 n = some res
      simp only [register, hl, hrec, if_true]
      exact lookup_insert_self hl res

/-- C4 witness: on a present name the stored counter is returned with no
factory call; on an absent name a zero-parameter factory is invoked once and
its result is stored and returned. -/
theorem getOrRegister_factory_contract_witness :
    GetOrRegister [("a", Value.metric .counter 1)] "a" (Value.func 0 (Value.metric .counter 2))
      = some ⟨[("a", Value.metric .counter 1)], Value.metric .counter 1, 0⟩
    ∧ GetOrRegister [] "b" (Value.func 0 (Value.metric .counter 2))
      = some ⟨[("b", Value.metric .counter 2)], Value.metric .counter 2, 1⟩
    ∧ Get [("b", Value.metric .counter 2)] "b" = some (Value.metric .counter 2) := by
  refine ⟨?_, ?_, ?_⟩
  · exact (getOrRegister_factory_contract [("a", Value.metric .counter 1)] "a"
      (Value.metric .counter 2)).1 (Value.metric .counter 1)
      (Value.func 0 (Value.metric .counter 2)) rfl
  · have h := ((getOrRegister_factory_contract [] "b" (Value.metric .counter 2)).2 rfl).1
    simpa [register, lookup, recognized] using h
  · have h := ((getOrRegister_factory_contract [] "b" (Value.metric .counter 2)).2 rfl).2 rfl
    simpa [register, lookup, recognized] using h

/-- C5 counterexample: the claim quantifies over every argument, but for a
function-kind argument that expects a parameter the call does not return a
metric value at all: `reflect.Value.Call(nil)` panics before `register` is
reached, so `GetOrRegister` aborts (modelled as `none`). -/
theorem getOrRegister_not_total :
    GetOrRegister [] "x" (Value.func 1 (Value.other 0)) = none := rfl

/-- C5 amended: for every argument whose materialization does not panic
(any non-function value, or a zero-parameter function), `GetOrRegister`
returns a metric value and surfaces no error; in particular when the read
finds the name absent but another writer has inserted it before the write
lock is re-acquired, the internal `register` call does raise
`DuplicateMetric n` yet the error is discarded and the caller still receives
the materialized value.  `DuplicateMetric` reaches a caller only through
`Register`. -/
theorem getOrRegister_suppresses_duplicate (rRead rWrite : Registry) (n : String)
    (i v : Value) (c : Nat) (hm : materialize i = some (v, c)) :
    (GetOrRegisterRaced rRead rWrite n i).isSome = true
    ∧ (∀ w, lookup rRead n = none → lookup rWrite n = some w →
        register rWrite n v = (rWrite, some (RegError.duplicateMetric n))
        ∧ GetOrRegisterRaced rRead rWrite n i = some ⟨rWrite, v, c⟩) := by
  constructor
  · cases h : lookup rRead n with
    | some m => simp [GetOrRegisterRaced, h]
    | none => simp [GetOrRegisterRaced, h, hm]
  · intro w h1 h2
    have hreg : register rWrite n v = (rWrite, some (RegError.duplicateMetric n)) := by
      simp [register, h2]
    refine ⟨hreg, ?_⟩
    simp [GetOrRegisterRaced, h1, hm, hreg]

/-- C5 witness: a racing writer registers `"x"` between the read and the
insert; the internal `register` reports `DuplicateMetric "x"`, the caller
sees the materialized value and no error. -/
theorem getOrRegister_suppresses_duplicate_witness :
    register [("x", Value.metric .counter 1)] "x" (Value.metric .counter 2)
      = ([("x", Value.metric .counter 1)], some (RegError.duplicateMetric "x"))
    ∧ GetOrRegisterRaced [] [("x", Value.metric .counter 1)] "x" (Value.metric .counter 2)
      = some ⟨[("x", Value.metric .counter 1)], Value.metric .counter 2, 0⟩ :=
  (getOrRegister_suppresses_duplicate [] [("x", Value.metric .counter 1)] "x"
    (Value.metric .counter 2) (Value.metric .counter 2) 0 rfl).2
    (Value.metric .counter 1) rfl rfl

/-- C6 counterexample: the claim says a callable that takes parameters is
treated as a literal value and the call completes without failure.  In the
code the reflection test is only `Kind() == reflect.Func`, so a
two-parameter function is still invoked with `Call(nil)`, which panics: the
call fails instead of completing with the literal stored. -/
theorem param_callable_not_literal :
    GetOrRegister [] "y" (Value.func 2 (Value.other 7)) = none := rfl

/-- C6 amended: an argument is treated as a factory if and only if it is of
function kind, regardless of arity.  For an absent name: a zero-parameter
function is invoked and its result used; a function taking parameters is
also invoked, and the invocation panics (the call fails); only non-function
arguments are treated as literal values, and those calls complete without
failure. -/
theorem factory_detection_by_kind (r : Registry) (n : String) (a : Nat)
    (res i : Value) (habs : Get r n = none) :
    GetOrRegister r n (Value.func 0 res) = some ⟨(register r n res).1, res, 1⟩
    ∧ GetOrRegister r n (Value.func (a + 1) res) = none
    ∧ (isFunc i = false → GetOrRegister r n i = some ⟨(register r n i).1, i, 0⟩) := by
  have hl : lookup r n = none := habs
  refine ⟨?_, ?_, ?_⟩
  · simp [GetOrRegister, GetOrRegisterRaced, hl, materialize]
  · simp [GetOrRegister, GetOrRegisterRaced, hl, materialize]
  · intro hf
    have hm : materialize i = some (i, 0) := by
      cases i with
      | metric k id => rfl
      | other id => rfl
      | func a res => simp [isFunc] at hf
    simp [GetOrRegister, GetOrRegisterRaced, hl, hm]

/-- C6 witness: with the name absent, a zero-parameter factory is invoked, a
one-parameter function makes the call fail, and a non-function literal is
stored as-is. -/
theorem factory_detection_by_kind_witness :
    GetOrRegister [] "z" (Value.func 0 (Value.metric .gauge 3))
      = some ⟨[("z", Value.metric .gauge 3)], Value.metric .gauge 3, 1⟩
    ∧ GetOrRegister [] "z" (Value.func 1 (Value.metric .gauge 3)) = none
    ∧ GetOrRegister [] "z" (Value.metric .gauge 3)
      = some ⟨[("z", Value.metric .gauge 3)], Value.metric .gauge 3, 0⟩ := by
  have h := factory_detection_by_kind [] "z" 0 (Value.metric .gauge 3)
    (Value.metric .gauge 3) rfl
  refine ⟨?_, h.2.1, ?_⟩
  · simpa [register, lookup, recognized] using h.1
  · simpa [register, lookup, recognized] using h.2.2 rfl

/-- C10: for an absent name and a non-function value satisfying no
recognized variant, `GetOrRegister` returns that value itself with the
registry unchanged and no factory invocation, so a subsequent `Get` on the
resulting registry still returns the absent indicator even though the
caller holds a non-absent reference. -/
theorem getOrRegister_unrecognized_literal (r : Registry) (n : String) (v : Value)
    (h1 : Get r n = none) (h2 : recognized v = false) (h3 : isFunc v = false) :
    GetOrRegister r n v = some ⟨r, v, 0⟩
    ∧ ∀ s : GoRResult, GetOrRegister r n v = some s → Get s.registry n = none := by
  have hl : lookup r n = none := h1
  have hm : materialize v = some (v, 0) := by
    cases v with
    | metric k id => simp [recognized] at h2
    | other id => rfl
    | func a res => simp [isFunc] at h3
  have hreg : register r n v = (r, none) := by
    simp [register, hl, h2]
  have hmain : GetOrRegister r n v = some ⟨r, v, 0⟩ := by
    simp [GetOrRegister, GetOrRegisterRaced, hl, hm, hreg]
  refine ⟨hmain, ?_⟩
  intro s hs
  rw [hmain] at hs
  cases hs
  exact h1

/-- C10 witness: an unrecognized literal under a fresh name is returned to
the caller but never stored. -/
theorem getOrRegister_unrecognized_literal_witness :
    GetOrRegister [] "w" (Value.other 9) = some ⟨[], Value.other 9, 0⟩
    ∧ Get ([] : Registry) "w" = none := by
  have h := getOrRegister_unrecognized_literal [] "w" (Value.other 9) rfl rfl rfl
  exact ⟨h.1, h.2 ⟨[], Value.other 9, 0⟩ h.1⟩

/-- C7: `Each` visits exactly the (name, metric) pairs present when its
snapshot is taken — each pair exactly once under the map invariant — and the
visit trace is the same for every mutation `g` the visitor applies to a
registry from inside the iteration (e.g. `Register` or `Unregister` on the
very registry being iterated), because the snapshot is a copy. -/
theorem each_visits_snapshot_once (r : Registry)
    (g : String → Value → Registry → Registry) (h : WF r) :
    (eachWithMutation r g).2 = r
    ∧ ∀ p : String × Value,
        List.count p (eachWithMutation r g).2 = if p ∈ r then 1 else 0 := by
  refine ⟨eachWithMutation_trace r g, ?_⟩
  intro p
  rw [eachWithMutation_trace r g]
  exact count_eq_ite_of_nodup (nodup_of_wf h) p

/-- C7 witness: a visitor that unregisters every visited name from the
registry still sees the full snapshot, each pair once. -/
theorem each_visits_snapshot_once_witness :
    (eachWithMutation [("a", Value.metric .counter 1), ("b", Value.metric .gauge 2)]
        (fun n _ st => Unregister st n)).2
      = [("a", Value.metric .counter 1), ("b", Value.metric .gauge 2)]
    ∧ List.count ("a", Value.metric .counter 1)
        (eachWithMutation [("a", Value.metric .counter 1), ("b", Value.metric .gauge 2)]
          (fun n _ st => Unregister st n)).2 = 1 := by
  have h := each_visits_snapshot_once
    [("a", Value.metric .counter 1), ("b", Value.metric .gauge 2)]
    (fun n _ st => Unregister st n) (by simp [WF])
  refine ⟨h.1, ?_⟩
  have hc := h.2 ("a", Value.metric .counter 1)
  simpa using hc

/-- C8: under the map invariant, `RunHealthchecks` invokes `Check()` exactly
once on every registered entry satisfying the Healthcheck capability and
zero times on every other entry (the trace counts each entry's
invocations). -/
theorem runHealthchecks_exactly_healthchecks (r : Registry) (h : WF r) :
    ∀ p : String × Value,
      List.count p (RunHealthchecks r)
        = if p ∈ r ∧ isHealthcheck p.2 = true then 1 else 0 := by
  intro p
  rw [runHealthchecks_eq_filter]
  rw [count_eq_ite_of_nodup (List.Nodup.filter _ (nodup_of_wf h)) p]
  by_cases hp : p ∈ r ∧ isHealthcheck p.2 = true
  · rw [if_pos hp, if_pos (List.mem_filter.mpr ⟨hp.1, hp.2⟩)]
  · rw [if_neg hp, if_neg]
    intro hmem
    obtain ⟨h1, h2⟩ := List.mem_filter.mp hmem
    exact hp ⟨h1, h2⟩

/-- C8 witness: in a registry holding one healthcheck and one counter, the
healthcheck entry is checked once and the counter entry never. -/
theorem runHealthchecks_exactly_healthchecks_witness :
    List.count ("h", Value.metric .healthcheck 1)
      (RunHealthchecks [("h", Value.metric .healthcheck 1), ("c", Value.metric .counter 2)]) = 1
    ∧ List.count ("c", Value.metric .counter 2)
      (RunHealthchecks [("h", Value.metric .healthcheck 1), ("c", Value.metric .counter 2)]) = 0 := by
  have h := runHealthchecks_exactly_healthchecks
    [("h", Value.metric .healthcheck 1), ("c", Value.metric .counter 2)] (by simp [WF])
  constructor
  · have := h ("h", Value.metric .healthcheck 1)
    simpa [isHealthcheck] using this
  · have := h ("c", Value.metric .counter 2)
    simpa [isHealthcheck] using this

/-- C9: `UnregisterAll` removes every entry (the delete-every-key loop
empties the map), so an `Each` that follows visits zero entries whatever its
visitor does; it is idempotent, and its Go signature returns no value and no
error (here: it is a total function into `Registry` alone). -/
theorem unregisterAll_clears_and_idempotent (r : Registry)
    (g : String → Value → Registry → Registry) :
    UnregisterAll r = []
    ∧ (eachWithMutation (UnregisterAll r) g).2 = []
    ∧ UnregisterAll (UnregisterAll r) = UnregisterAll r := by
  refine ⟨unregisterAll_eq_nil r, ?_, ?_⟩
  · rw [eachWithMutation_trace]
    exact unregisterAll_eq_nil r
  · rw [unregisterAll_eq_nil r]
    rfl
